import Mathlib

/-!
Verification of `src/proxy/router/src/access.rs`: a last-access-time
accounting primitive. A `Node<T>` pairs a value with a `last_access`
instant; `Node::access(&N)` hands out an `Access` guard wrapping the
exclusive `&mut Node<T>` reference together with a `&N` reference to a
time source (the `Now` trait); when the guard is dropped it writes
`self.now.now()` into the node's `last_access` field.

Embedding conventions:
- `std::time::Instant` is modelled as `Nat` ticks (nanoseconds);
  `Duration` likewise.
- The `Now` trait is a type class whose `now` maps the time source's
  current state to its reading. A time source reached through a `&N`
  reference may present different states at different moments (the
  default `()` source reads the ambient system clock, which advances
  while it is borrowed), so every operation of the embedding that makes
  a `now()` call takes the referenced source's state at that moment as
  an explicit argument. Only `Drop::drop` makes such a call.
- The `&mut Node<T>` reference held by the guard is embedded as the
  node value threaded through the guard's operations; the node state
  when the borrow ends is the value returned by `Access.drop`.
-/

namespace RouterAccess

/-- `std::time::Instant`, modelled as nanosecond ticks. -/
abbrev Instant := Nat

/-- `std::time::Duration`, modelled as nanosecond ticks. -/
abbrev Duration := Nat

/-- `Duration::from_secs`, in nanosecond ticks. -/
def Duration.from_secs (s : Nat) : Duration := s * 1000000000

/-- The `Now` trait: `fn now(&self) -> Instant`. `now` maps the current
state of the time source to the instant it reports. -/
class Now (N : Type) where
  now : N → Instant

/-- `Node<T>`: `value: T`, `last_access: Instant` (`access.rs` lines
10-13). The projection `Node.last_access` is also the method
`Node::last_access(&self)`, which returns the field unchanged. -/
structure Node (T : Type) where
  value : T
  last_access : Instant
  deriving Repr, DecidableEq

/-- `Node::new(value, last_access)`: stores both fields verbatim. -/
def Node.new {T : Type} (value : T) (last_access : Instant) : Node T :=
  { value := value, last_access := last_access }

/-- `impl Deref for Node`: `&self.value`. -/
def Node.deref {T : Type} (n : Node T) : T := n.value

/-- A write through `impl DerefMut for Node` (`&mut self.value`):
assigning `v` to the returned place replaces the payload and nothing
else. -/
def Node.deref_mut_write {T : Type} (n : Node T) (v : T) : Node T :=
  { n with value := v }

/-- `Access<'a, T, N>` (`access.rs` lines 21-24): holds
`node: &'a mut Node<T>` and `now: &'a N`. The exclusive node reference
is embedded as the current node value; the `now` reference is embedded
by passing the referenced source's state to each operation that calls
`now()` (only `drop` does). -/
structure Access (T : Type) (N : Type) where
  node : Node T

/-- `Node::access(&'a mut self, now: &'a N) -> Access<'a, T, N>`:
`Access { now, node: self }`. It performs no `now()` call and no field
update; the `now` argument merely designates the time source whose
state at later `now()` calls is supplied there. -/
def Node.access {T N : Type} (n : Node T) (now : N) : Access T N :=
  { node := n }

/-- `impl Deref for Access`: `&self.node`, which reaches the wrapped
value through `Node`'s `Deref`. -/
def Access.deref {T N : Type} (a : Access T N) : T := a.node.deref

/-- A write through `impl DerefMut for Access` (`&mut self.node`,
reaching `value` through `Node`'s `DerefMut`). -/
def Access.deref_mut_write {T N : Type} (a : Access T N) (v : T) :
    Access T N :=
  { a with node := a.node.deref_mut_write v }

/-- `Access::last_access(&self)`: `self.node.last_access`. -/
def Access.last_access {T N : Type} (a : Access T N) : Instant :=
  a.node.last_access

/-- `impl Drop for Access`: `self.node.last_access = self.now.now();`.
`nowState` is the state of the time source referenced by `self.now` at
the moment the guard is dropped; the returned node is the state of the
`&mut`-referenced node when the exclusive borrow ends. -/
def Access.drop {T N : Type} [Now N] (a : Access T N) (nowState : N) :
    Node T :=
  { a.node with last_access := Now.now nowState }

/-- One operation performed through a live guard: a read of the wrapped
value (`Deref`), a write to it (`DerefMut`), or a read of the stale
timestamp (`Access::last_access`). -/
inductive GuardOp (T : Type) where
  | deref
  | write (v : T)
  | lastAccess
  deriving Repr, DecidableEq

/-- Whether a guard operation is a write through `DerefMut`. -/
def GuardOp.isWrite {T : Type} : GuardOp T → Bool
  | .write _ => true
  | _ => false

/-- Effect of one guard operation on the guard: reads leave it
unchanged, a write goes through `Access`'s `DerefMut`. -/
def Access.applyOp {T N : Type} (a : Access T N) : GuardOp T → Access T N
  | .deref => a
  | .write v => a.deref_mut_write v
  | .lastAccess => a

/-- Effect of a sequence of guard operations, performed left to right
while the guard is live. -/
def Access.applyOps {T N : Type} (a : Access T N) (ops : List (GuardOp T)) :
    Access T N :=
  ops.foldl Access.applyOp a

/-- One operation performed on a node between accesses: a direct read or
write of the payload through `Node`'s `Deref`/`DerefMut`, a read of
`Node::last_access`, or a fully-completed access/release cycle — acquire
a guard while the time source's state is `cAcq`, perform `gops` through
it, drop it while the source's state is `cRel`. -/
inductive NodeOp (T N : Type) where
  | derefRead
  | derefWrite (v : T)
  | readLastAccess
  | accessCycle (cAcq : N) (gops : List (GuardOp T)) (cRel : N)

/-- Effect of one node-level operation on the node. -/
def Node.applyOp {T N : Type} [Now N] (n : Node T) : NodeOp T N → Node T
  | .derefRead => n
  | .derefWrite v => n.deref_mut_write v
  | .readLastAccess => n
  | .accessCycle cAcq gops cRel =>
      Access.drop (Access.applyOps (Node.access n cAcq) gops) cRel

/-- Effect of a sequence of node-level operations, left to right. -/
def Node.applyOps {T N : Type} [Now N] (n : Node T)
    (ops : List (NodeOp T N)) : Node T :=
  ops.foldl Node.applyOp n

/-- The timestamp the invariant of the module predicts after a history:
the initial timestamp `t0` if no access/release cycle has completed,
otherwise the time source's reading at the most recent release. -/
def lastReleaseReading {T N : Type} [Now N] (t0 : Instant) :
    List (NodeOp T N) → Instant
  | [] => t0
  | .accessCycle _ _ cRel :: rest => lastReleaseReading (Now.now cRel) rest
  | .derefRead :: rest => lastReleaseReading t0 rest
  | .derefWrite _ :: rest => lastReleaseReading t0 rest
  | .readLastAccess :: rest => lastReleaseReading t0 rest

/-- The sequence of node states observed after each of a list of
successive fully-completed access/release cycles: each step records the
source state at acquisition, the guard operations, and the source state
at release. -/
def cycleTrace {T N : Type} [Now N] (n : Node T) :
    List (N × List (GuardOp T) × N) → List (Node T)
  | [] => []
  | s :: rest =>
      let n1 := Access.drop (Access.applyOps (Node.access n s.1) s.2.1) s.2.2
      n1 :: cycleTrace n1 rest

/-- Modelled from the spec: the deterministic test time source `Clock`
of `test_util`, which is not under `src/` — it "holds an internally
mutable current instant, exposes a separate advance-by-duration
operation for test control, and returns that instant from `now()`". -/
structure Clock where
  instant : Instant
  deriving Repr, DecidableEq

/-- Modelled from the spec: `Clock::advance(duration)` moves the held
instant forward by the duration. -/
def Clock.advance (c : Clock) (d : Duration) : Clock :=
  { instant := c.instant + d }

instance : Now Clock := ⟨fun c => c.instant⟩

@[simp] lemma now_clock (c : Clock) : Now.now c = c.instant := rfl

/- ===== helper lemmas ===== -/

lemma applyOp_node_last_access {T N : Type} (a : Access T N)
    (op : GuardOp T) : (a.applyOp op).node.last_access = a.node.last_access := by
  cases op <;> rfl

lemma applyOps_node_last_access {T N : Type} (a : Access T N)
    (ops : List (GuardOp T)) :
    (a.applyOps ops).node.last_access = a.node.last_access := by
  induction ops generalizing a with
  | nil => rfl
  | cons op rest ih =>
      simpa [Access.applyOps, List.foldl_cons, applyOp_node_last_access]
        using ih (a.applyOp op)

lemma applyOps_node_value_of_no_write {T N : Type} (a : Access T N)
    (ops : List (GuardOp T)) (h : ∀ op ∈ ops, op.isWrite = false) :
    (a.applyOps ops).node.value = a.node.value := by
  induction ops generalizing a with
  | nil => rfl
  | cons op rest ih =>
      have hop : op.isWrite = false := h op (List.mem_cons_self op rest)
      have hrest : ∀ o ∈ rest, o.isWrite = false := fun o ho =>
        h o (List.mem_cons_of_mem op ho)
      have step : (a.applyOp op).node.value = a.node.value := by
        cases op with
        | deref => rfl
        | write v => simp [GuardOp.isWrite] at hop
        | lastAccess => rfl
      simpa [Access.applyOps, List.foldl_cons, step] using ih (a.applyOp op) hrest

lemma applyOps_last_access_eq {T N : Type} [Now N] (n : Node T)
    (ops : List (NodeOp T N)) :
    (n.applyOps ops).last_access = lastReleaseReading n.last_access ops := by
  induction ops generalizing n with
  | nil => rfl
  | cons op rest ih =>
      cases op with
      | derefRead =>
          simpa [Node.applyOps, List.foldl_cons, Node.applyOp,
            lastReleaseReading] using ih n
      | derefWrite v =>
          have := ih (n.deref_mut_write v)
          simpa [Node.applyOps, List.foldl_cons, Node.applyOp,
            lastReleaseReading, Node.deref_mut_write] using this
      | readLastAccess =>
          simpa [Node.applyOps, List.foldl_cons, Node.applyOp,
            lastReleaseReading] using ih n
      | accessCycle cAcq gops cRel =>
          have := ih (Access.drop (Access.applyOps (Node.access n cAcq) gops) cRel)
          simpa [Node.applyOps, List.foldl_cons, Node.applyOp,
            lastReleaseReading, Access.drop] using this

lemma cycleTrace_map_last_access {T N : Type} [Now N] (n : Node T)
    (steps : List (N × List (GuardOp T) × N)) :
    (cycleTrace n steps).map Node.last_access
      = steps.map fun s => Now.now s.2.2 := by
  induction steps generalizing n with
  | nil => rfl
  | cons s rest ih =>
      simpa [cycleTrace, List.map_cons, Access.drop]
        using congrArg (List.cons (Now.now s.2.2))
          (ih (Access.drop (Access.applyOps (Node.access n s.1) s.2.1) s.2.2))

/- ===== claim theorems ===== -/

/-- Claim C1: whenever an `Access` guard obtained from `Node.access` is
released — whatever sequence of guard operations occurred in between —
the drop writes the time source's reading at release time (`cRel`) into
the node's `last_access` field; the acquisition-time state `cAcq` does
not influence the value written. -/
theorem c1_release_writes_now_at_release {T N : Type} [Now N] (n : Node T)
    (cAcq : N) (gops : List (GuardOp T)) (cRel : N) :
    (Access.drop (Access.applyOps (Node.access n cAcq) gops) cRel).last_access
      = Now.now cRel := rfl

/-- Claim C2: for every sequence of operations performed while the guard
is live (payload reads and writes, repeated `last_access()` calls), the
guard's `last_access()` returns the node's timestamp as it was before
this access began. -/
theorem c2_guard_last_access_is_stale {T N : Type} (n : Node T) (c : N)
    (gops : List (GuardOp T)) :
    (Access.applyOps (Node.access n c) gops).last_access = n.last_access := by
  simpa [Access.last_access] using
    applyOps_node_last_access (Node.access n c) gops

/-- Claim C3: after any sequence of module operations starting from
`Node.new v t0`, the node's `last_access` equals the construction
timestamp if no access/release cycle has completed, and otherwise the
time source's reading at the most recent guard release; no operation
other than a release changes it. -/
theorem c3_last_access_invariant {T N : Type} [Now N] (v : T) (t0 : Instant)
    (ops : List (NodeOp T N)) :
    (Node.applyOps (Node.new v t0) ops).last_access
      = lastReleaseReading t0 ops := by
  simpa [Node.new] using applyOps_last_access_eq (Node.new v t0) ops

/-- Claim C4: `Node.new v t0` has `last_access() = t0` and payload `v`,
for every value and every timestamp, with no validation. -/
theorem c4_new_stores_timestamp_and_value {T : Type} (v : T) (t0 : Instant) :
    (Node.new v t0).last_access = t0 ∧ (Node.new v t0).deref = v :=
  ⟨rfl, rfl⟩

/-- Claim C5: `Node.access` neither invokes the time source's `now()`
nor mutates the node: the node carried by the fresh guard is exactly the
node before the call, and the constructed guard does not depend on the
time source's state (so no reading is taken). -/
theorem c5_access_reads_no_clock {T N : Type} (n : Node T) (c c2 : N) :
    (Node.access n c).node = n ∧ Node.access n c = Node.access n c2 :=
  ⟨rfl, rfl⟩

/-- Claim C6: a value written through the live guard's mutable
dereference is the node's payload observed after the guard is
released. -/
theorem c6_write_visible_after_release {T N : Type} [Now N] (n : Node T)
    (cAcq cRel : N) (w : T) :
    (Access.drop (Access.deref_mut_write (Node.access n cAcq) w) cRel).deref
      = w := rfl

/-- Claim C7: if the time source's successive `now()` readings — one per
release, the only `now()` calls made — are non-decreasing, then the
`last_access` values read after each of the successive fully-completed
access/release cycles are non-decreasing. -/
theorem c7_last_access_monotone {T N : Type} [Now N] (n : Node T)
    (steps : List (N × List (GuardOp T) × N))
    (h : List.Chain' (fun a b => a ≤ b) (steps.map fun s => Now.now s.2.2)) :
    List.Chain' (fun a b => a ≤ b)
      ((cycleTrace n steps).map Node.last_access) := by
  rw [cycleTrace_map_last_access]
  exact h

/-- Witness for C7 at a concrete two-cycle run with readings 2 then 5. -/
theorem c7_last_access_monotone_witness :
    List.Chain' (fun a b => a ≤ b)
      (([(Clock.mk 1, [], Clock.mk 2), (Clock.mk 2, [GuardOp.write 7], Clock.mk 5)] :
          List (Clock × List (GuardOp Nat) × Clock)).map fun s => Now.now s.2.2) ∧
    List.Chain' (fun a b => a ≤ b)
      ((cycleTrace (Node.new 3 0)
        [(Clock.mk 1, [], Clock.mk 2), (Clock.mk 2, [GuardOp.write 7], Clock.mk 5)]).map
          Node.last_access) :=
  ⟨by simp, c7_last_access_monotone (Node.new 3 0)
    [(Clock.mk 1, [], Clock.mk 2), (Clock.mk 2, [GuardOp.write 7], Clock.mk 5)]
    (by simp)⟩

/-- Claim C8: with a fake clock starting at any state `c0`
(`t0 = now c0`), `Node.new 123 t0`, the clock advanced by one second to
`t1`: a guard acquired with the advanced clock still reports `t0`; after
release the node reports `t1`, and `t0 ≠ t1`. -/
theorem c8_fake_clock_scenario (c0 : Clock) :
    (Node.access (Node.new 123 (Now.now c0))
        (Clock.advance c0 (Duration.from_secs 1))).last_access = Now.now c0 ∧
    (Access.drop (Node.access (Node.new 123 (Now.now c0))
          (Clock.advance c0 (Duration.from_secs 1)))
        (Clock.advance c0 (Duration.from_secs 1))).last_access
      = Now.now (Clock.advance c0 (Duration.from_secs 1)) ∧
    Now.now c0 ≠ Now.now (Clock.advance c0 (Duration.from_secs 1)) := by
  refine ⟨rfl, rfl, ?_⟩
  simp [Clock.advance, Duration.from_secs]

/-- Claim C9: every operation of the primitive — construction, the
node's timestamp read, access acquisition, the guard's dereference
(read and write), the guard's timestamp read, guard release, and any
sequence thereof — yields a result on every input: the embedding is by
total functions with no error outcome. -/
theorem c9_all_operations_total {T N : Type} [Now N] (v w : T)
    (t0 : Instant) (n : Node T) (c cRel : N) (gops : List (GuardOp T))
    (ops : List (NodeOp T N)) :
    (∃ m, Node.new v t0 = m) ∧ (∃ t, n.last_access = t) ∧
    (∃ a, Node.access n c = a) ∧ (∃ x, (Node.access n c).deref = x) ∧
    (∃ a2, Access.deref_mut_write (Node.access n c) w = a2) ∧
    (∃ t, Access.last_access (Node.access n c) = t) ∧
    (∃ m, Access.drop (Access.applyOps (Node.access n c) gops) cRel = m) ∧
    (∃ m, Node.applyOps n ops = m) :=
  ⟨⟨_, rfl⟩, ⟨_, rfl⟩, ⟨_, rfl⟩, ⟨_, rfl⟩, ⟨_, rfl⟩, ⟨_, rfl⟩, ⟨_, rfl⟩,
    ⟨_, rfl⟩⟩

/-- Claim C10: dropping a guard changes only `last_access` — the payload
after release equals the payload at the moment of release — so a
complete acquire/release cycle whose guard operations contain no write
leaves the wrapped value unchanged. -/
theorem c10_release_preserves_value {T N : Type} [Now N] (a : Access T N)
    (cRel : N) (n : Node T) (cA cR : N) (gops : List (GuardOp T))
    (h : ∀ op ∈ gops, op.isWrite = false) :
    (Access.drop a cRel).value = a.node.value ∧
    (Access.drop (Access.applyOps (Node.access n cA) gops) cR).value
      = n.value := by
  refine ⟨rfl, ?_⟩
  simpa [Access.drop] using
    applyOps_node_value_of_no_write (Node.access n cA) gops h

/-- Witness for C10 at a concrete read-only cycle. -/
theorem c10_release_preserves_value_witness :
    (∀ op ∈ ([GuardOp.deref, GuardOp.lastAccess] : List (GuardOp Nat)),
      op.isWrite = false) ∧
    ((Access.drop (Node.access (Node.new 5 0) (Clock.mk 1))
        (Clock.mk 2)).value = (Node.new 5 0).value ∧
      (Access.drop (Access.applyOps (Node.access (Node.new 5 0) (Clock.mk 1))
          [GuardOp.deref, GuardOp.lastAccess]) (Clock.mk 2)).value
        = (Node.new (5 : Nat) 0).value) :=
  ⟨by decide, c10_release_preserves_value
    (Node.access (Node.new 5 0) (Clock.mk 1)) (Clock.mk 2) (Node.new 5 0)
    (Clock.mk 1) (Clock.mk 2) [GuardOp.deref, GuardOp.lastAccess]
    (by decide)⟩

end RouterAccess
